import Mathlib

/-!
# Verification of the ETS2 Company Logo Downloader harvest routine

Shallow embedding of `LogoDownloaderWorker.run` from
`ETS2CompanyLogoDownloader.py`.  The worker fetches one wiki page, extracts
`img` elements, filters candidate URLs, downloads each surviving URL, and
writes qualifying payloads to `<saveFolder>/Downloaded_Company_Logos/`.

External effects (directory creation, image fetches, file writes, progress
and status signal emissions) are modelled as an explicit, ordered trace of
`Effect`s.  Network and filesystem outcomes are inputs of the model: an
`Env` supplies the page-fetch result, the per-URL image fetch oracle
(`none` models a `requests` exception), the per-path write oracle (`false`
models an `open`/`write` exception), and the value of the shared
`is_running` flag as read at the top of each loop iteration.

Machine-level notes: Python string predicates are modelled over `Char`
lists (the URLs and filenames in play are ASCII); the float expression
`int(((idx + 1) / total_images) * 100)` is modelled bit-exactly by
`pyPercent`, which reproduces IEEE-754 binary64 round-to-nearest-even at
the division and the multiplication and the final truncation using exact
integer arithmetic; payload bytes are `List Nat`.
-/

namespace ETS2

/-- `listStarts pre l` holds when `pre` is an initial segment of `l`
(character-list version of Python `str.startswith`). -/
def listStarts : List Char → List Char → Bool
  | [], _ => true
  | _ :: _, [] => false
  | a :: as, b :: bs => a == b && listStarts as bs

/-- Python `s.startswith(pre)`. -/
def strStarts (pre s : String) : Bool :=
  listStarts pre.toList s.toList

/-- `listHas needle hay`: `needle` occurs as a contiguous segment of `hay`. -/
def listHas (needle : List Char) : List Char → Bool
  | [] => listStarts needle []
  | c :: t => listStarts needle (c :: t) || listHas needle t

/-- Python `needle in s` on strings. -/
def strHas (needle s : String) : Bool :=
  listHas needle.toList s.toList

/-- Everything of `l` strictly before the first occurrence of `sep`
(`l` itself when `sep` never occurs): the list behind Python
`s.split(sep)[0]` for a non-empty `sep`. -/
def cutAt (sep : List Char) : List Char → List Char
  | [] => []
  | c :: t => if listStarts sep (c :: t) then [] else c :: cutAt sep t

/-- `full_size_url = img_url.split("/revision/")[0]`. -/
def dropRev (url : String) : String :=
  String.mk (cutAt "/revision/".toList url.toList)

/-- `os.path.basename` on a URL-style path: the segment after the last
slash. -/
def basename (s : String) : String :=
  String.mk ((s.toList.reverse.takeWhile (fun c => c != '/')).reverse)

/-- Characters kept by the sanitizer:
`c.isalnum() or c in (' ', '.', '_')`. -/
def keepChar (c : Char) : Bool :=
  c.isAlphanum || c == ' ' || c == '.' || c == '_'

/-- `"".join(c for c in name if keep(c)).rstrip()`.  After the filter the
only whitespace character that can remain is a space, so `rstrip` is
dropping trailing spaces. -/
def sanitizeName (s : String) : String :=
  String.mk (((s.toList.filter keepChar).reverse.dropWhile (fun c => c == ' ')).reverse)

/-- The filename chosen before sanitization:
`img_name = os.path.basename(full_size_url)` with the fallback
`f"logo_{idx}.jpg"` when the basename is empty or has no dot. -/
def chooseName (fullUrl : String) (idx : Nat) : String :=
  let b := basename fullUrl
  if b = "" || strHas "." b = false then "logo_" ++ toString idx ++ ".jpg" else b

/-- The fixed destination sub-folder name. -/
def logosFolderName : String := "Downloaded_Company_Logos"

/-- Full save path for the candidate URL `url` at position `idx`:
`os.path.join(save_folder, "Downloaded_Company_Logos", sanitized-name)`,
the name being derived from the revision-stripped URL. -/
def savePathFor (saveFolder url : String) (idx : Nat) : String :=
  saveFolder ++ "/" ++ logosFolderName ++ "/" ++ sanitizeName (chooseName (dropRev url) idx)

/-- Python `a or b` on two optional strings, as used in
`img.get("data-src") or img.get("src")`: the empty string is falsy, so a
present-but-empty first operand falls through to the second. -/
def pyOr (a b : Option String) : Option String :=
  match a with
  | none => b
  | some s => if s = "" then b else some s

/-!
## Exact model of the progress percentage

The source computes `int(((idx + 1) / total_images) * 100)` in IEEE-754
binary64 floats: the int/int division is the correctly rounded double of
the exact ratio, the multiplication by 100 is the correctly rounded
double product, and `int` truncates toward zero (= floor here, both
factors being nonnegative).  `pyPercent` reproduces this bit-exactly via
integer arithmetic: `roundFrac a t` is the double nearest `a / t` (ties
to even), kept as an exact fraction.  Overflow and subnormal rounding are
not modelled: they need ratios outside `(2^-1022, 2^1024)`, unreachable
here since the loop rounds ratios in `(0, 1]` with denominators bounded
by the page's element count, and their products with 100.  `total = 0`
is guarded (Python would raise `ZeroDivisionError`; the loop never runs
with zero candidates).
-/

/-- Fuel-driven ⌊log₂ n⌋: correct once `n ≤ fuel`. -/
def lg2 : Nat → Nat → Nat
  | 0, _ => 0
  | fuel + 1, n => if n ≤ 1 then 0 else lg2 fuel (n / 2) + 1

/-- `⌊log₂ n⌋` for `n ≥ 1`. -/
def log2n (n : Nat) : Nat := lg2 n n

/-- Decide `2 ^ e ≤ a / t` over the integers. -/
def pow2ratLe (e : Int) (a t : Nat) : Bool :=
  if 0 ≤ e then decide (2 ^ e.toNat * t ≤ a) else decide (t ≤ a * 2 ^ (-e).toNat)

/-- `⌊log₂ (a / t)⌋` for `a, t ≥ 1`. -/
def floorLog2 (a t : Nat) : Int :=
  if pow2ratLe ((log2n a : Int) - (log2n t : Int)) a t
  then (log2n a : Int) - (log2n t : Int)
  else (log2n a : Int) - (log2n t : Int) - 1

/-- Round `num / den` to the nearest integer, ties to even. -/
def rhe (num den : Nat) : Nat :=
  let m := num / den
  let r := num % den
  if 2 * r < den then m
  else if den < 2 * r then m + 1
  else if m % 2 = 0 then m else m + 1

/-- The fraction `(a / t) · 2 ^ (52 − e)`, whose value lies in
`[2^52, 2^53)`, as an exact numerator/denominator pair. -/
def scaled (a t : Nat) : Nat × Nat :=
  if 52 ≤ floorLog2 a t then (a, t * 2 ^ (floorLog2 a t - 52).toNat)
  else (a * 2 ^ (52 - floorLog2 a t).toNat, t)

/-- The IEEE-754 binary64 value nearest to `a / t` (ties to even), as an
exact fraction. -/
def roundFrac (a t : Nat) : Nat × Nat :=
  if 52 ≤ floorLog2 a t
  then (rhe (scaled a t).1 (scaled a t).2 * 2 ^ (floorLog2 a t - 52).toNat, 1)
  else (rhe (scaled a t).1 (scaled a t).2, 2 ^ (52 - floorLog2 a t).toNat)

/-- Exact model of the float expression
`int(((idx + 1) / total_images) * 100)`. -/
def pyPercent (idx total : Nat) : Nat :=
  if total = 0 then 0
  else
    (roundFrac ((roundFrac (idx + 1) total).1 * 100) (roundFrac (idx + 1) total).2).1 /
      (roundFrac ((roundFrac (idx + 1) total).1 * 100) (roundFrac (idx + 1) total).2).2

theorem pyPercent_one_three : pyPercent 1 3 = 66 := by decide
theorem pyPercent_zero_one : pyPercent 0 1 = 100 := by decide
theorem pyPercent_28_100 : pyPercent 28 100 = 28 := by decide
theorem pyPercent_two_three : pyPercent 2 3 = 100 := by decide


theorem lg2_correct : ∀ fuel n, 1 ≤ n → n ≤ fuel →
    2 ^ lg2 fuel n ≤ n ∧ n < 2 ^ (lg2 fuel n + 1) := by
  intro fuel
  induction fuel with
  | zero => intro n h1 h2; omega
  | succ fuel ih =>
    intro n h1 h2
    unfold lg2
    by_cases hn : n ≤ 1
    · rw [if_pos hn]
      constructor
      · simpa using h1
      · rw [pow_one]; omega
    · rw [if_neg hn]
      obtain ⟨ih1, ih2⟩ := ih (n / 2) (by omega) (by omega)
      rw [pow_succ, pow_succ]
      omega

theorem log2n_correct (n : Nat) (h : 1 ≤ n) :
    2 ^ log2n n ≤ n ∧ n < 2 ^ (log2n n + 1) :=
  lg2_correct n n h le_rfl

theorem pow2ratLe_iff (e : Int) (a t : Nat) (ht : 0 < t) :
    pow2ratLe e a t = true ↔ (2:ℚ) ^ e ≤ (a:ℚ) / t := by
  have htq : (0:ℚ) < t := by exact_mod_cast ht
  unfold pow2ratLe
  by_cases he : 0 ≤ e
  · rw [if_pos he, decide_eq_true_eq]
    obtain ⟨n, rfl⟩ : ∃ n : Nat, e = (n : Int) := ⟨e.toNat, by omega⟩
    rw [zpow_natCast, le_div_iff₀ htq, Int.toNat_natCast]
    constructor
    · intro h; exact_mod_cast h
    · intro h; exact_mod_cast h
  · rw [if_neg he, decide_eq_true_eq]
    obtain ⟨n, rfl⟩ : ∃ n : Nat, e = -(n : Int) := ⟨(-e).toNat, by omega⟩
    rw [zpow_neg, zpow_natCast, inv_eq_one_div,
      div_le_div_iff₀ (by positivity) htq, one_mul]
    have hn : (-(-(n:Int))).toNat = n := by omega
    rw [hn]
    constructor
    · intro h; exact_mod_cast h
    · intro h; exact_mod_cast h


theorem zpow_two_eq_two_pow (n : Nat) : (2:ℚ) ^ (n : Int) = (2:ℚ) ^ n :=
  zpow_natCast 2 n

theorem floorLog2_correct (a t : Nat) (ha : 0 < a) (ht : 0 < t) :
    (2:ℚ) ^ floorLog2 a t ≤ (a:ℚ) / t ∧
      (a:ℚ) / t < (2:ℚ) ^ (floorLog2 a t + 1) := by
  obtain ⟨la1, la2⟩ := log2n_correct a ha
  obtain ⟨lt1, lt2⟩ := log2n_correct t ht
  have htq : (0:ℚ) < t := by exact_mod_cast ht
  have hub : (a:ℚ) / t < (2:ℚ) ^ (((log2n a : Int) - (log2n t : Int)) + 1) := by
    rw [div_lt_iff₀ htq]
    calc (a:ℚ) < (2:ℚ) ^ (log2n a + 1) := by exact_mod_cast la2
      _ = (2:ℚ) ^ (((log2n a : Int) - (log2n t : Int)) + 1) * (2:ℚ) ^ (log2n t) := by
          rw [← zpow_two_eq_two_pow (log2n a + 1), ← zpow_two_eq_two_pow (log2n t),
            ← zpow_add₀ (two_ne_zero)]
          congr 1
          push_cast
          ring
      _ ≤ (2:ℚ) ^ (((log2n a : Int) - (log2n t : Int)) + 1) * t := by
          have h1 : ((2:ℚ)) ^ (log2n t) ≤ t := by exact_mod_cast lt1
          exact mul_le_mul_of_nonneg_left h1 (by positivity)
  have hlb : (2:ℚ) ^ (((log2n a : Int) - (log2n t : Int)) - 1) < (a:ℚ) / t := by
    rw [lt_div_iff₀ htq]
    calc (2:ℚ) ^ (((log2n a : Int) - (log2n t : Int)) - 1) * (t:ℚ)
        < (2:ℚ) ^ (((log2n a : Int) - (log2n t : Int)) - 1) * (2:ℚ) ^ (log2n t + 1) := by
          have h1 : (t:ℚ) < (2:ℚ) ^ (log2n t + 1) := by exact_mod_cast lt2
          exact mul_lt_mul_of_pos_left h1 (by positivity)
      _ = (2:ℚ) ^ (log2n a) := by
          rw [← zpow_two_eq_two_pow (log2n t + 1), ← zpow_two_eq_two_pow (log2n a),
            ← zpow_add₀ (two_ne_zero)]
          congr 1
          push_cast
          ring
      _ ≤ a := by exact_mod_cast la1
  unfold floorLog2
  by_cases hc : pow2ratLe ((log2n a : Int) - (log2n t : Int)) a t = true
  · rw [if_pos hc]
    exact ⟨(pow2ratLe_iff _ a t ht).mp hc, hub⟩
  · rw [if_neg hc]
    have hnot : ¬ (2:ℚ) ^ ((log2n a : Int) - (log2n t : Int)) ≤ (a:ℚ) / t :=
      fun h => hc ((pow2ratLe_iff _ a t ht).mpr h)
    constructor
    · exact le_of_lt hlb
    · rw [show (log2n a : Int) - (log2n t : Int) - 1 + 1 =
        (log2n a : Int) - (log2n t : Int) by ring]
      exact lt_of_not_le hnot


theorem rhe_spec (num den : Nat) (hd : 0 < den) :
    ((num:ℚ)/den - 1/2 ≤ rhe num den ∧ (rhe num den : ℚ) ≤ (num:ℚ)/den + 1/2) ∧
    (((rhe num den : ℚ) = (num:ℚ)/den + 1/2 ∨
        (rhe num den : ℚ) = (num:ℚ)/den - 1/2) → 2 ∣ rhe num den) := by
  have hdq : (0:ℚ) < den := by exact_mod_cast hd
  have hdm := Nat.div_add_mod num den
  have hrlt : num % den < den := Nat.mod_lt _ hd
  have hx : (num:ℚ)/den = (num / den : Nat) + (num % den : Nat)/den := by
    have h1 : (num:ℚ) = den * (num / den : Nat) + (num % den : Nat) := by
      exact_mod_cast hdm.symm
    rw [h1, add_div, mul_div_cancel_left₀ _ (ne_of_gt hdq)]
  have hr0 : (0:ℚ) ≤ (num % den : Nat)/den := by positivity
  have hr1 : ((num % den : Nat):ℚ)/den < 1 := by
    rw [div_lt_one hdq]
    exact_mod_cast hrlt
  unfold rhe
  dsimp only
  split_ifs with h1 h2 h3
  · -- 2r < den : round down
    have hh : ((num % den : Nat):ℚ)/den < 1/2 := by
      rw [div_lt_iff₀ hdq]
      have : (2:ℚ) * (num % den : Nat) < den := by exact_mod_cast h1
      linarith
    refine ⟨⟨by rw [hx]; linarith, by rw [hx]; linarith⟩, ?_⟩
    intro hc
    rcases hc with hc | hc <;> rw [hx] at hc <;> exfalso <;> linarith
  · -- den < 2r : round up
    have hh : 1/2 < ((num % den : Nat):ℚ)/den := by
      rw [lt_div_iff₀ hdq]
      have : (den:ℚ) < 2 * (num % den : Nat) := by exact_mod_cast h2
      linarith
    refine ⟨⟨by push_cast; rw [hx]; linarith, by push_cast; rw [hx]; linarith⟩, ?_⟩
    intro hc
    rcases hc with hc | hc <;> rw [hx] at hc <;> push_cast at hc <;> exfalso <;> linarith
  · -- tie, quotient even : round down
    have hh : ((num % den : Nat):ℚ)/den = 1/2 := by
      have he : den = 2 * (num % den) := by omega
      rw [div_eq_iff (ne_of_gt hdq)]
      have : (den:ℚ) = 2 * (num % den : Nat) := by exact_mod_cast he
      linarith
    refine ⟨⟨by rw [hx]; linarith, by rw [hx]; linarith⟩, ?_⟩
    intro _
    exact Nat.dvd_of_mod_eq_zero h3
  · -- tie, quotient odd : round up (to even)
    have hh : ((num % den : Nat):ℚ)/den = 1/2 := by
      have he : den = 2 * (num % den) := by omega
      rw [div_eq_iff (ne_of_gt hdq)]
      have : (den:ℚ) = 2 * (num % den : Nat) := by exact_mod_cast he
      linarith
    refine ⟨⟨by push_cast; rw [hx]; linarith, by push_cast; rw [hx]; linarith⟩, ?_⟩
    intro _
    omega

theorem rhe_ge (num den : Nat) (hd : 0 < den) :
    (num:ℚ)/den - 1/2 ≤ rhe num den := ((rhe_spec num den hd).1).1

theorem rhe_le (num den : Nat) (hd : 0 < den) :
    (rhe num den : ℚ) ≤ (num:ℚ)/den + 1/2 := ((rhe_spec num den hd).1).2

theorem rhe_mono (num den num' den' : Nat) (hd : 0 < den) (hd' : 0 < den')
    (h : (num:ℚ)/den ≤ (num':ℚ)/den') : rhe num den ≤ rhe num' den' := by
  by_contra hlt
  push_neg at hlt
  have hlt' : (rhe num' den' : ℚ) + 1 ≤ rhe num den := by exact_mod_cast hlt
  have l1 := rhe_le num den hd
  have g2 := rhe_ge num' den' hd'
  have ex : (rhe num den : ℚ) = (num:ℚ)/den + 1/2 := by linarith
  have ey : (rhe num' den' : ℚ) = (num':ℚ)/den' - 1/2 := by linarith
  have d1 := (rhe_spec num den hd).2 (Or.inl ex)
  have d2 := (rhe_spec num' den' hd').2 (Or.inr ey)
  have heq : (rhe num den : ℚ) = (rhe num' den' : ℚ) + 1 := by linarith
  have heqn : rhe num den = rhe num' den' + 1 := by exact_mod_cast heq
  omega

theorem rhe_exact (num den : Nat) (hd : 0 < den) (hdvd : den ∣ num) :
    (rhe num den : ℚ) = (num:ℚ)/den := by
  obtain ⟨c, rfl⟩ := hdvd
  have hr : den * c % den = 0 := Nat.mul_mod_right den c
  have h : rhe (den * c) den = c := by
    unfold rhe
    dsimp only
    rw [hr, if_pos (by omega), Nat.mul_div_cancel_left c hd]
  rw [h]
  push_cast
  rw [mul_div_cancel_left₀]
  exact_mod_cast ne_of_gt hd


theorem scaled_den_pos (a t : Nat) (ht : 0 < t) : 0 < (scaled a t).2 := by
  unfold scaled
  split_ifs
  · positivity
  · exact ht

theorem scaled_val (a t : Nat) (ht : 0 < t) :
    ((scaled a t).1 : ℚ) / (scaled a t).2 =
      (a:ℚ)/t * (2:ℚ) ^ ((52:ℤ) - floorLog2 a t) := by
  have htq : (0:ℚ) < t := by exact_mod_cast ht
  unfold scaled
  split_ifs with he
  · dsimp only
    have h1 : ((2:ℚ)) ^ ((floorLog2 a t - 52).toNat) = (2:ℚ) ^ (floorLog2 a t - 52) := by
      rw [← zpow_natCast (2:ℚ), Int.toNat_of_nonneg (by omega)]
    have h2 : (2:ℚ) ^ ((52:ℤ) - floorLog2 a t) = ((2:ℚ) ^ (floorLog2 a t - 52))⁻¹ := by
      rw [show (52:ℤ) - floorLog2 a t = -(floorLog2 a t - 52) by ring, zpow_neg]
    push_cast
    rw [h1, h2]
    have hz : ((2:ℚ) ^ (floorLog2 a t - 52)) ≠ 0 := zpow_ne_zero _ (by norm_num)
    field_simp
  · dsimp only
    have h1 : ((2:ℚ)) ^ (((52:ℤ) - floorLog2 a t).toNat) = (2:ℚ) ^ ((52:ℤ) - floorLog2 a t) := by
      rw [← zpow_natCast (2:ℚ), Int.toNat_of_nonneg (by omega)]
    push_cast
    rw [h1]
    ring

theorem roundFrac_den_pos (a t : Nat) : 0 < (roundFrac a t).2 := by
  unfold roundFrac
  split_ifs
  · exact one_pos
  · positivity

theorem roundFrac_val (a t : Nat) :
    ((roundFrac a t).1 : ℚ) / (roundFrac a t).2 =
      (rhe (scaled a t).1 (scaled a t).2 : ℚ) * (2:ℚ) ^ (floorLog2 a t - 52) := by
  unfold roundFrac
  split_ifs with he
  · dsimp only
    have h1 : ((2:ℚ)) ^ ((floorLog2 a t - 52).toNat) = (2:ℚ) ^ (floorLog2 a t - 52) := by
      rw [← zpow_natCast (2:ℚ), Int.toNat_of_nonneg (by omega)]
    push_cast
    rw [h1, div_one]
  · dsimp only
    have h1 : ((2:ℚ)) ^ (((52:ℤ) - floorLog2 a t).toNat) = (2:ℚ) ^ ((52:ℤ) - floorLog2 a t) := by
      rw [← zpow_natCast (2:ℚ), Int.toNat_of_nonneg (by omega)]
    push_cast
    rw [h1, show floorLog2 a t - (52:ℤ) = -((52:ℤ) - floorLog2 a t) by ring, zpow_neg,
      ← div_eq_mul_inv]

theorem scaled_bounds (a t : Nat) (ha : 0 < a) (ht : 0 < t) :
    (2:ℚ) ^ (52:ℕ) ≤ ((scaled a t).1 : ℚ) / (scaled a t).2 ∧
      ((scaled a t).1 : ℚ) / (scaled a t).2 < (2:ℚ) ^ (53:ℕ) := by
  obtain ⟨hlo, hhi⟩ := floorLog2_correct a t ha ht
  rw [scaled_val a t ht]
  have hp : (0:ℚ) < (2:ℚ) ^ ((52:ℤ) - floorLog2 a t) := by positivity
  constructor
  · have e1 : (2:ℚ) ^ (52:ℕ) =
        (2:ℚ) ^ (floorLog2 a t) * (2:ℚ) ^ ((52:ℤ) - floorLog2 a t) := by
      rw [← zpow_two_eq_two_pow 52,
        show ((52:ℕ):ℤ) = floorLog2 a t + ((52:ℤ) - floorLog2 a t) by push_cast; ring,
        zpow_add₀ (two_ne_zero)]
    rw [e1]
    exact mul_le_mul_of_nonneg_right hlo (le_of_lt hp)
  · have e2 : (2:ℚ) ^ (53:ℕ) =
        (2:ℚ) ^ (floorLog2 a t + 1) * (2:ℚ) ^ ((52:ℤ) - floorLog2 a t) := by
      rw [← zpow_two_eq_two_pow 53,
        show ((53:ℕ):ℤ) = (floorLog2 a t + 1) + ((52:ℤ) - floorLog2 a t) by push_cast; ring,
        zpow_add₀ (two_ne_zero)]
    rw [e2]
    exact mul_lt_mul_of_pos_right hhi hp

theorem rhe_scaled_lo (a t : Nat) (ha : 0 < a) (ht : 0 < t) :
    2 ^ 52 ≤ rhe (scaled a t).1 (scaled a t).2 := by
  have hb := (scaled_bounds a t ha ht).1
  have hg := rhe_ge (scaled a t).1 (scaled a t).2 (scaled_den_pos a t ht)
  by_contra hc
  push_neg at hc
  have h1 : rhe (scaled a t).1 (scaled a t).2 ≤ 2 ^ 52 - 1 := by omega
  have h2 : (rhe (scaled a t).1 (scaled a t).2 : ℚ) ≤ ((2 ^ 52 - 1 : Nat) : ℚ) :=
    (Nat.cast_le (α := ℚ)).mpr h1
  have h3 : ((2 ^ 52 - 1 : Nat) : ℚ) = (2:ℚ) ^ (52:ℕ) - 1 := by norm_num
  rw [h3] at h2
  linarith

theorem rhe_scaled_hi (a t : Nat) (ha : 0 < a) (ht : 0 < t) :
    rhe (scaled a t).1 (scaled a t).2 ≤ 2 ^ 53 := by
  have hb := (scaled_bounds a t ha ht).2
  have hl := rhe_le (scaled a t).1 (scaled a t).2 (scaled_den_pos a t ht)
  by_contra hc
  push_neg at hc
  have h1 : 2 ^ 53 + 1 ≤ rhe (scaled a t).1 (scaled a t).2 := by omega
  have h2 : ((2 ^ 53 + 1 : Nat) : ℚ) ≤ (rhe (scaled a t).1 (scaled a t).2 : ℚ) :=
    (Nat.cast_le (α := ℚ)).mpr h1
  have h3 : ((2 ^ 53 + 1 : Nat) : ℚ) = (2:ℚ) ^ (53:ℕ) + 1 := by norm_num
  rw [h3] at h2
  linarith


theorem floorLog2_mono (a t a' t' : Nat) (ha : 0 < a) (ht : 0 < t)
    (ha' : 0 < a') (ht' : 0 < t') (h : (a:ℚ)/t ≤ (a':ℚ)/t') :
    floorLog2 a t ≤ floorLog2 a' t' := by
  obtain ⟨h1, _⟩ := floorLog2_correct a t ha ht
  obtain ⟨_, h4⟩ := floorLog2_correct a' t' ha' ht'
  have hlt : (2:ℚ) ^ floorLog2 a t < (2:ℚ) ^ (floorLog2 a' t' + 1) := by linarith
  have := (zpow_lt_zpow_iff_right₀ (by norm_num : (1:ℚ) < 2)).mp hlt
  omega

theorem roundFrac_num_pos (a t : Nat) (ha : 0 < a) (ht : 0 < t) :
    0 < (roundFrac a t).1 := by
  have hlo := rhe_scaled_lo a t ha ht
  unfold roundFrac
  split_ifs
  · positivity
  · dsimp only
    omega

theorem roundFrac_mono (a t a' t' : Nat) (ha : 0 < a) (ht : 0 < t)
    (ha' : 0 < a') (ht' : 0 < t') (h : (a:ℚ)/t ≤ (a':ℚ)/t') :
    ((roundFrac a t).1 : ℚ) / (roundFrac a t).2 ≤
      ((roundFrac a' t').1 : ℚ) / (roundFrac a' t').2 := by
  have hee' := floorLog2_mono a t a' t' ha ht ha' ht' h
  rw [roundFrac_val a t, roundFrac_val a' t']
  rcases eq_or_lt_of_le hee' with heq | hlt
  · rw [← heq]
    apply mul_le_mul_of_nonneg_right ?_ (by positivity)
    have hfr : ((scaled a t).1 : ℚ) / (scaled a t).2 ≤
        ((scaled a' t').1 : ℚ) / (scaled a' t').2 := by
      rw [scaled_val a t ht, scaled_val a' t' ht', ← heq]
      exact mul_le_mul_of_nonneg_right h (by positivity)
    exact_mod_cast Nat.cast_le.mpr
      (rhe_mono _ _ _ _ (scaled_den_pos a t ht) (scaled_den_pos a' t' ht') hfr)
  · have hhi := rhe_scaled_hi a t ha ht
    have hlo := rhe_scaled_lo a' t' ha' ht'
    calc (rhe (scaled a t).1 (scaled a t).2 : ℚ) * (2:ℚ) ^ (floorLog2 a t - 52)
        ≤ ((2:ℚ) ^ (53:ℕ)) * (2:ℚ) ^ (floorLog2 a t - 52) := by
          have : (rhe (scaled a t).1 (scaled a t).2 : ℚ) ≤ (2:ℚ) ^ (53:ℕ) := by
            exact_mod_cast Nat.cast_le.mpr hhi
          exact mul_le_mul_of_nonneg_right this (by positivity)
      _ = (2:ℚ) ^ (floorLog2 a t + 1) := by
          rw [← zpow_two_eq_two_pow 53, ← zpow_add₀ (two_ne_zero)]
          congr 1
          push_cast
          ring
      _ ≤ (2:ℚ) ^ (floorLog2 a' t') :=
          zpow_le_zpow_right₀ (by norm_num) (by omega)
      _ = ((2:ℚ) ^ (52:ℕ)) * (2:ℚ) ^ (floorLog2 a' t' - 52) := by
          rw [← zpow_two_eq_two_pow 52, ← zpow_add₀ (two_ne_zero)]
          congr 1
          push_cast
          ring
      _ ≤ (rhe (scaled a' t').1 (scaled a' t').2 : ℚ) * (2:ℚ) ^ (floorLog2 a' t' - 52) := by
          have : ((2:ℚ) ^ (52:ℕ)) ≤ (rhe (scaled a' t').1 (scaled a' t').2 : ℚ) := by
            exact_mod_cast Nat.cast_le.mpr hlo
          exact mul_le_mul_of_nonneg_right this (by positivity)

theorem roundFrac_self (t : Nat) (ht : 0 < t) :
    ((roundFrac t t).1 : ℚ) / (roundFrac t t).2 = 1 := by
  have htq : (0:ℚ) < t := by exact_mod_cast ht
  have hself : (t:ℚ)/t = 1 := div_self (ne_of_gt htq)
  obtain ⟨h1, h2⟩ := floorLog2_correct t t ht ht
  rw [hself] at h1 h2
  have he : floorLog2 t t = 0 := by
    have ha : floorLog2 t t ≤ 0 := by
      have : (2:ℚ) ^ floorLog2 t t ≤ (2:ℚ) ^ (0:ℤ) := by norm_num at h1 ⊢; exact h1
      exact (zpow_le_zpow_iff_right₀ (by norm_num : (1:ℚ) < 2)).mp this
    have hb : (0:ℤ) < floorLog2 t t + 1 := by
      have : (2:ℚ) ^ (0:ℤ) < (2:ℚ) ^ (floorLog2 t t + 1) := by norm_num at h2 ⊢; exact h2
      exact (zpow_lt_zpow_iff_right₀ (by norm_num : (1:ℚ) < 2)).mp this
    omega
  have hsc : scaled t t = (t * 2 ^ 52, t) := by
    unfold scaled
    rw [he]
    norm_num
    exact Or.inl (by decide)
  have hrhe : (rhe (t * 2 ^ 52) t : ℚ) = ((t * 2 ^ 52 : Nat) : ℚ) / t :=
    rhe_exact _ _ ht ⟨2 ^ 52, rfl⟩
  have hval : ((t * 2 ^ 52 : Nat) : ℚ) / t = (2:ℚ) ^ (52:ℕ) := by
    push_cast
    field_simp
    norm_num
  rw [roundFrac_val t t, he, hsc, hrhe, hval, ← zpow_two_eq_two_pow 52,
    ← zpow_add₀ (two_ne_zero)]
  norm_num

theorem roundFrac_100_nat : roundFrac 100 1 = (7036874417766400, 70368744177664) := by
  decide

theorem roundFrac_100 : ((roundFrac 100 1).1 : ℚ) / (roundFrac 100 1).2 = 100 := by
  rw [roundFrac_100_nat]
  norm_num


theorem floorDiv_mono (n d n' d' : Nat) (hd' : 0 < d')
    (h : (n:ℚ)/d ≤ (n':ℚ)/d') : n / d ≤ n' / d' := by
  rw [Nat.le_div_iff_mul_le hd']
  have c1 : ((n / d : Nat) : ℚ) ≤ (n:ℚ)/d := Nat.cast_div_le
  have c2 : ((n / d : Nat) : ℚ) * d' ≤ (n':ℚ) := by
    calc ((n / d : Nat) : ℚ) * d' ≤ ((n:ℚ)/d) * d' :=
          mul_le_mul_of_nonneg_right c1 (by positivity)
      _ ≤ ((n':ℚ)/d') * d' := mul_le_mul_of_nonneg_right h (by positivity)
      _ = (n':ℚ) := div_mul_cancel₀ _ (by exact_mod_cast ne_of_gt hd')
  exact_mod_cast c2

theorem pyPercent_mono (i j t : Nat) (hij : i ≤ j) :
    pyPercent i t ≤ pyPercent j t := by
  unfold pyPercent
  by_cases ht : t = 0
  · simp [ht]
  · rw [if_neg ht, if_neg ht]
    have ht' : 0 < t := Nat.pos_of_ne_zero ht
    have htq : (0:ℚ) < t := by exact_mod_cast ht'
    have hx : ((roundFrac (i + 1) t).1 : ℚ) / (roundFrac (i + 1) t).2 ≤
        ((roundFrac (j + 1) t).1 : ℚ) / (roundFrac (j + 1) t).2 := by
      apply roundFrac_mono _ _ _ _ (by omega) ht' (by omega) ht'
      apply div_le_div_of_nonneg_right ?_ (le_of_lt htq)
      exact_mod_cast Nat.succ_le_succ hij
    have hy : ((roundFrac ((roundFrac (i + 1) t).1 * 100) (roundFrac (i + 1) t).2).1 : ℚ) /
        (roundFrac ((roundFrac (i + 1) t).1 * 100) (roundFrac (i + 1) t).2).2 ≤
        ((roundFrac ((roundFrac (j + 1) t).1 * 100) (roundFrac (j + 1) t).2).1 : ℚ) /
        (roundFrac ((roundFrac (j + 1) t).1 * 100) (roundFrac (j + 1) t).2).2 := by
      apply roundFrac_mono
      · have := roundFrac_num_pos (i + 1) t (by omega) ht'
        positivity
      · exact roundFrac_den_pos (i + 1) t
      · have := roundFrac_num_pos (j + 1) t (by omega) ht'
        positivity
      · exact roundFrac_den_pos (j + 1) t
      · push_cast
        rw [mul_comm ((roundFrac (i + 1) t).1 : ℚ) 100,
          mul_comm ((roundFrac (j + 1) t).1 : ℚ) 100,
          mul_div_assoc, mul_div_assoc]
        exact mul_le_mul_of_nonneg_left hx (by norm_num)
    exact floorDiv_mono _ _ _ _ (roundFrac_den_pos _ _) hy

theorem pyPercent_le_100 (i t : Nat) (h : i + 1 ≤ t) : pyPercent i t ≤ 100 := by
  have ht' : 0 < t := by omega
  have htq : (0:ℚ) < t := by exact_mod_cast ht'
  unfold pyPercent
  rw [if_neg (by omega)]
  have hx1 : ((roundFrac (i + 1) t).1 : ℚ) / (roundFrac (i + 1) t).2 ≤ 1 := by
    calc ((roundFrac (i + 1) t).1 : ℚ) / (roundFrac (i + 1) t).2
        ≤ ((roundFrac t t).1 : ℚ) / (roundFrac t t).2 := by
          apply roundFrac_mono _ _ _ _ (by omega) ht' ht' ht'
          apply div_le_div_of_nonneg_right ?_ (le_of_lt htq)
          exact_mod_cast h
      _ = 1 := roundFrac_self t ht'
  have hy : ((roundFrac ((roundFrac (i + 1) t).1 * 100) (roundFrac (i + 1) t).2).1 : ℚ) /
      (roundFrac ((roundFrac (i + 1) t).1 * 100) (roundFrac (i + 1) t).2).2 ≤ 100 := by
    calc ((roundFrac ((roundFrac (i + 1) t).1 * 100) (roundFrac (i + 1) t).2).1 : ℚ) /
        (roundFrac ((roundFrac (i + 1) t).1 * 100) (roundFrac (i + 1) t).2).2
        ≤ ((roundFrac 100 1).1 : ℚ) / (roundFrac 100 1).2 := by
          apply roundFrac_mono
          · have := roundFrac_num_pos (i + 1) t (by omega) ht'
            positivity
          · exact roundFrac_den_pos (i + 1) t
          · norm_num
          · norm_num
          · push_cast
            rw [mul_comm ((roundFrac (i + 1) t).1 : ℚ) 100, mul_div_assoc, div_one]
            calc (100:ℚ) * (((roundFrac (i + 1) t).1 : ℚ) / (roundFrac (i + 1) t).2)
                ≤ 100 * 1 := mul_le_mul_of_nonneg_left hx1 (by norm_num)
              _ = 100 := by norm_num
      _ = 100 := roundFrac_100
  have := floorDiv_mono
    (roundFrac ((roundFrac (i + 1) t).1 * 100) (roundFrac (i + 1) t).2).1
    (roundFrac ((roundFrac (i + 1) t).1 * 100) (roundFrac (i + 1) t).2).2
    100 1 one_pos (by simpa using hy)
  simpa using this

/-- One extracted `img` element: its `data-src` and `src` attributes
(`none` = attribute absent). -/
structure Candidate where
  dataSrc : Option String
  src : Option String
deriving DecidableEq

/-- Outcome of the page fetch + parse:
a candidate list, a `requests.exceptions.RequestException`, or any other
exception. -/
inductive PageResult where
  | ok (imgs : List Candidate)
  | netError (msg : String)
  | otherError (msg : String)
deriving DecidableEq

/-- Observable effects of one run, in order. -/
inductive Effect where
  | mkdir
  | fetch (url : String)
  | write (path : String) (data : List Nat)
  | progress (value : Nat)
  | status (msg : String)
deriving DecidableEq

/-- The run's environment: page outcome, image-fetch oracle (`none` models
a fetch exception), write oracle (`false` models a write exception), the
`is_running` flag as read at the top of iteration `idx`, and the chosen
save folder. -/
structure Env where
  page : PageResult
  fetch : String → Option (List Nat)
  writeOk : String → Bool
  isRunning : Nat → Bool
  saveFolder : String

/-- Effects and saved-count contribution of one loop iteration. -/
structure CandOut where
  trace : List Effect
  saved : Nat
deriving DecidableEq

/-- The body of the `for idx, img in enumerate(images)` loop for one
candidate (everything after the cancellation check). -/
def candStep (env : Env) (total idx : Nat) (c : Candidate) : CandOut :=
  match pyOr c.dataSrc c.src with
  | none => ⟨[], 0⟩
  | some url =>
    if url = "" then ⟨[], 0⟩
    else if strStarts "data:image" url then ⟨[], 0⟩
    else if strHas "/images/" url = false then ⟨[], 0⟩
    else
      match env.fetch (dropRev url) with
      | none => ⟨[Effect.fetch (dropRev url)], 0⟩
      | some pay =>
        if pay.length < 5000 then ⟨[Effect.fetch (dropRev url)], 0⟩
        else
          if env.writeOk (savePathFor env.saveFolder url idx) then
            ⟨[Effect.fetch (dropRev url),
              Effect.write (savePathFor env.saveFolder url idx) pay,
              Effect.progress (pyPercent idx total)], 1⟩
          else ⟨[Effect.fetch (dropRev url)], 0⟩

/-- Result of the candidate loop: its effect trace, the saved count, and
whether the loop returned through the cancellation branch. -/
structure LoopOut where
  trace : List Effect
  saved : Nat
  canceled : Bool
deriving DecidableEq

/-- The candidate loop from position `idx` on: each iteration first reads
the `is_running` flag and, when it is cleared, returns at once. -/
def runLoop (env : Env) (total : Nat) : List Candidate → Nat → LoopOut
  | [], _ => ⟨[], 0, false⟩
  | c :: rest, idx =>
    if env.isRunning idx then
      let d := candStep env total idx c
      let r := runLoop env total rest (idx + 1)
      ⟨d.trace ++ r.trace, d.saved + r.saved, r.canceled⟩
    else ⟨[], 0, true⟩

/-- Result of one whole run: its effect trace, the saved count, and the
single terminal status message. -/
structure RunOut where
  trace : List Effect
  saved : Nat
  finalStatus : String
deriving DecidableEq

/-- `f"Downloaded {count} logos to 'Downloaded_Company_Logos'."` -/
def downloadedMsg (n : Nat) : String :=
  "Downloaded " ++ toString n ++ " logos to \x27Downloaded_Company_Logos\x27."

/-- `LogoDownloaderWorker.run`: page fetch, zero-images early return,
eager `os.makedirs`, initial `progress.emit(0)`, the candidate loop, and
the terminal emissions; the two outer exception handlers turn page-fetch
failures into status messages. -/
def run (env : Env) : RunOut :=
  match env.page with
  | PageResult.netError m =>
      ⟨[Effect.status ("Network Error: " ++ m)], 0, "Network Error: " ++ m⟩
  | PageResult.otherError m =>
      ⟨[Effect.status ("Error: " ++ m)], 0, "Error: " ++ m⟩
  | PageResult.ok imgs =>
    if imgs.length = 0 then
      ⟨[Effect.status "No images found on the page."], 0,
        "No images found on the page."⟩
    else
      let r := runLoop env imgs.length imgs 0
      if r.canceled then
        ⟨Effect.mkdir :: Effect.progress 0 ::
            (r.trace ++ [Effect.status "Download canceled."]),
          r.saved, "Download canceled."⟩
      else
        ⟨Effect.mkdir :: Effect.progress 0 ::
            (r.trace ++ [Effect.progress 100,
              Effect.status (downloadedMsg r.saved)]),
          r.saved, downloadedMsg r.saved⟩

/-- The progress values of a trace, in emission order. -/
def progressValues (t : List Effect) : List Nat :=
  t.filterMap fun e =>
    match e with
    | Effect.progress v => some v
    | _ => none

/-- The status messages of a trace, in emission order. -/
def statusValues (t : List Effect) : List String :=
  t.filterMap fun e =>
    match e with
    | Effect.status m => some m
    | _ => none

/-- The successful file writes of a trace, in order. -/
def writesOf (t : List Effect) : List (String × List Nat) :=
  t.filterMap fun e =>
    match e with
    | Effect.write p d => some (p, d)
    | _ => none

/-- How many directory creations a trace performs. -/
def mkdirCount : List Effect → Nat
  | [] => 0
  | Effect.mkdir :: t => mkdirCount t + 1
  | _ :: t => mkdirCount t

/-- Apply a list of file writes, in order, to a filesystem modelled as a
partial map from path to contents; a later write to the same path
overwrites. -/
def applyWrites (fs : String → Option (List Nat)) :
    List (String × List Nat) → String → Option (List Nat)
  | [] => fs
  | w :: ws => applyWrites (fun q => if q = w.1 then some w.2 else fs q) ws

/-! ## Generic lemmas about the extractors -/

theorem progressValues_append (a b : List Effect) :
    progressValues (a ++ b) = progressValues a ++ progressValues b :=
  List.filterMap_append a b _

theorem statusValues_append (a b : List Effect) :
    statusValues (a ++ b) = statusValues a ++ statusValues b :=
  List.filterMap_append a b _

theorem writesOf_append (a b : List Effect) :
    writesOf (a ++ b) = writesOf a ++ writesOf b :=
  List.filterMap_append a b _

theorem mkdirCount_append (a b : List Effect) :
    mkdirCount (a ++ b) = mkdirCount a + mkdirCount b := by
  induction a with
  | nil => simp [mkdirCount]
  | cons e t ih =>
    cases e <;> simp [mkdirCount, ih] ; omega

/-! ## Shape of one loop iteration -/

/-- Each iteration either skips silently, stops after the fetch attempt, or
fetches, writes and emits exactly the float-computed percentage
`pyPercent idx total`. -/
theorem candStep_shape (env : Env) (t i : Nat) (c : Candidate) :
    candStep env t i c = ⟨[], 0⟩ ∨
    (∃ u, candStep env t i c = ⟨[Effect.fetch u], 0⟩) ∨
    (∃ u p pay, env.fetch u = some pay ∧
      candStep env t i c =
        ⟨[Effect.fetch u, Effect.write p pay,
          Effect.progress (pyPercent i t)], 1⟩) := by
  unfold candStep
  rcases pyOr c.dataSrc c.src with _ | url
  · exact Or.inl rfl
  · dsimp only
    by_cases h1 : url = ""
    · rw [if_pos h1]; exact Or.inl rfl
    rw [if_neg h1]
    by_cases h2 : strStarts "data:image" url = true
    · rw [if_pos h2]; exact Or.inl rfl
    rw [if_neg h2]
    by_cases h3 : strHas "/images/" url = false
    · rw [if_pos h3]; exact Or.inl rfl
    rw [if_neg h3]
    rcases hf : env.fetch (dropRev url) with _ | pay
    · exact Or.inr (Or.inl ⟨_, rfl⟩)
    · dsimp only
      by_cases h4 : pay.length < 5000
      · rw [if_pos h4]; exact Or.inr (Or.inl ⟨_, rfl⟩)
      rw [if_neg h4]
      by_cases h5 : env.writeOk (savePathFor env.saveFolder url i) = true
      · rw [if_pos h5]; exact Or.inr (Or.inr ⟨_, _, _, hf, rfl⟩)
      · rw [if_neg h5]; exact Or.inr (Or.inl ⟨_, rfl⟩)

theorem candStep_progress (env : Env) (t i : Nat) (c : Candidate) :
    ((candStep env t i c).saved = 0 ∧
      progressValues (candStep env t i c).trace = []) ∨
    ((candStep env t i c).saved = 1 ∧
      progressValues (candStep env t i c).trace = [pyPercent i t]) := by
  rcases candStep_shape env t i c with h | ⟨u, h⟩ | ⟨u, p, pay, _, h⟩ <;>
    rw [h] <;> simp [progressValues]

theorem candStep_status (env : Env) (t i : Nat) (c : Candidate) :
    statusValues (candStep env t i c).trace = [] := by
  rcases candStep_shape env t i c with h | ⟨u, h⟩ | ⟨u, p, pay, _, h⟩ <;>
    rw [h] <;> simp [statusValues]

theorem candStep_mkdir (env : Env) (t i : Nat) (c : Candidate) :
    mkdirCount (candStep env t i c).trace = 0 := by
  rcases candStep_shape env t i c with h | ⟨u, h⟩ | ⟨u, p, pay, _, h⟩ <;>
    rw [h] <;> simp [mkdirCount]

/-! ## Loop-level lemmas -/

theorem runLoop_status (env : Env) (t : Nat) :
    ∀ (cs : List Candidate) (idx : Nat),
      statusValues (runLoop env t cs idx).trace = [] := by
  intro cs
  induction cs with
  | nil => intro idx; rfl
  | cons c rest ih =>
    intro idx
    unfold runLoop
    by_cases hr : env.isRunning idx
    · rw [if_pos hr]
      dsimp only
      rw [statusValues_append, candStep_status, ih]; rfl
    · rw [if_neg hr]; rfl

theorem runLoop_mkdir (env : Env) (t : Nat) :
    ∀ (cs : List Candidate) (idx : Nat),
      mkdirCount (runLoop env t cs idx).trace = 0 := by
  intro cs
  induction cs with
  | nil => intro idx; rfl
  | cons c rest ih =>
    intro idx
    unfold runLoop
    by_cases hr : env.isRunning idx
    · rw [if_pos hr]
      dsimp only
      rw [mkdirCount_append, candStep_mkdir, ih]
    · rw [if_neg hr]; rfl

/-- Every progress value the loop emits is the float-modelled percentage
of some index in the processed range. -/
theorem runLoop_progress_mem (env : Env) (t : Nat) :
    ∀ (cs : List Candidate) (idx : Nat) (v : Nat),
      v ∈ progressValues (runLoop env t cs idx).trace →
      ∃ j, idx ≤ j ∧ j + 1 ≤ idx + cs.length ∧ v = pyPercent j t := by
  intro cs
  induction cs with
  | nil => intro idx v hv; exact absurd hv (by simp [runLoop, progressValues])
  | cons c rest ih =>
    intro idx v hv
    unfold runLoop at hv
    by_cases hr : env.isRunning idx
    · rw [if_pos hr] at hv
      dsimp only at hv
      rw [progressValues_append] at hv
      rcases List.mem_append.mp hv with h | h
      · rcases candStep_progress env t idx c with ⟨_, hpv⟩ | ⟨_, hpv⟩
        · rw [hpv] at h; exact absurd h (List.not_mem_nil v)
        · rw [hpv] at h
          rcases List.mem_singleton.mp h with rfl
          exact ⟨idx, le_refl idx, by simp, rfl⟩
      · rcases ih (idx + 1) v h with ⟨j, hj1, hj2, hj3⟩
        exact ⟨j, by omega, by simp; omega, hj3⟩
    · rw [if_neg hr] at hv
      exact absurd hv (by simp [progressValues])

/-- The loop's progress emissions are non-decreasing. -/
theorem runLoop_progress_pairwise (env : Env) (t : Nat) :
    ∀ (cs : List Candidate) (idx : Nat),
      List.Pairwise (· ≤ ·) (progressValues (runLoop env t cs idx).trace) := by
  intro cs
  induction cs with
  | nil => intro idx; simp [runLoop, progressValues]
  | cons c rest ih =>
    intro idx
    unfold runLoop
    by_cases hr : env.isRunning idx
    · rw [if_pos hr]
      dsimp only
      rw [progressValues_append]
      rw [List.pairwise_append]
      refine ⟨?_, ih (idx + 1), ?_⟩
      · rcases candStep_progress env t idx c with ⟨_, hpv⟩ | ⟨_, hpv⟩ <;>
          rw [hpv] <;> simp
      · intro a ha b hb
        rcases candStep_progress env t idx c with ⟨_, hpv⟩ | ⟨_, hpv⟩
        · rw [hpv] at ha; exact absurd ha (List.not_mem_nil a)
        · rw [hpv] at ha
          rcases List.mem_singleton.mp ha with rfl
          rcases runLoop_progress_mem env t rest (idx + 1) b hb with ⟨j, hj1, _, rfl⟩
          exact pyPercent_mono idx j t (by omega)
    · rw [if_neg hr]
      simp [progressValues]

/-- When the flag stays set for every index the loop reads, the loop never
takes the cancellation branch. -/
theorem runLoop_not_canceled (env : Env) (t : Nat) :
    ∀ (cs : List Candidate) (idx : Nat),
      (∀ i, idx ≤ i → env.isRunning i = true) →
      (runLoop env t cs idx).canceled = false := by
  intro cs
  induction cs with
  | nil => intro idx _; rfl
  | cons c rest ih =>
    intro idx hflag
    unfold runLoop
    rw [if_pos (hflag idx (le_refl idx))]
    exact ih (idx + 1) (fun i hi => hflag i (by omega))

/-! ## Small reduction lemmas for the extractors -/

@[simp] theorem progressValues_nil : progressValues [] = [] := rfl

@[simp] theorem progressValues_mkdir (t : List Effect) :
    progressValues (Effect.mkdir :: t) = progressValues t := rfl

@[simp] theorem progressValues_fetch (u : String) (t : List Effect) :
    progressValues (Effect.fetch u :: t) = progressValues t := rfl

@[simp] theorem progressValues_write (p : String) (d : List Nat) (t : List Effect) :
    progressValues (Effect.write p d :: t) = progressValues t := rfl

@[simp] theorem progressValues_progress (v : Nat) (t : List Effect) :
    progressValues (Effect.progress v :: t) = v :: progressValues t := rfl

@[simp] theorem progressValues_status (m : String) (t : List Effect) :
    progressValues (Effect.status m :: t) = progressValues t := rfl

@[simp] theorem statusValues_nil : statusValues [] = [] := rfl

@[simp] theorem statusValues_mkdir (t : List Effect) :
    statusValues (Effect.mkdir :: t) = statusValues t := rfl

@[simp] theorem statusValues_fetch (u : String) (t : List Effect) :
    statusValues (Effect.fetch u :: t) = statusValues t := rfl

@[simp] theorem statusValues_write (p : String) (d : List Nat) (t : List Effect) :
    statusValues (Effect.write p d :: t) = statusValues t := rfl

@[simp] theorem statusValues_progress (v : Nat) (t : List Effect) :
    statusValues (Effect.progress v :: t) = statusValues t := rfl

@[simp] theorem statusValues_status (m : String) (t : List Effect) :
    statusValues (Effect.status m :: t) = m :: statusValues t := rfl

@[simp] theorem writesOf_nil : writesOf [] = [] := rfl

@[simp] theorem writesOf_mkdir (t : List Effect) :
    writesOf (Effect.mkdir :: t) = writesOf t := rfl

@[simp] theorem writesOf_fetch (u : String) (t : List Effect) :
    writesOf (Effect.fetch u :: t) = writesOf t := rfl

@[simp] theorem writesOf_write (p : String) (d : List Nat) (t : List Effect) :
    writesOf (Effect.write p d :: t) = (p, d) :: writesOf t := rfl

@[simp] theorem writesOf_progress (v : Nat) (t : List Effect) :
    writesOf (Effect.progress v :: t) = writesOf t := rfl

@[simp] theorem writesOf_status (m : String) (t : List Effect) :
    writesOf (Effect.status m :: t) = writesOf t := rfl

@[simp] theorem mkdirCount_nil : mkdirCount [] = 0 := rfl

@[simp] theorem mkdirCount_mkdir (t : List Effect) :
    mkdirCount (Effect.mkdir :: t) = mkdirCount t + 1 := rfl

@[simp] theorem mkdirCount_fetch (u : String) (t : List Effect) :
    mkdirCount (Effect.fetch u :: t) = mkdirCount t := rfl

@[simp] theorem mkdirCount_write (p : String) (d : List Nat) (t : List Effect) :
    mkdirCount (Effect.write p d :: t) = mkdirCount t := rfl

@[simp] theorem mkdirCount_progress (v : Nat) (t : List Effect) :
    mkdirCount (Effect.progress v :: t) = mkdirCount t := rfl

@[simp] theorem mkdirCount_status (m : String) (t : List Effect) :
    mkdirCount (Effect.status m :: t) = mkdirCount t := rfl

/-! ## The run in the non-trivial case -/

/-- `run` on a successfully fetched, non-empty page: eager mkdir, initial
progress 0, the loop, then either the cancellation status or final
progress 100 with the summary status. -/
theorem run_spec (env : Env) (imgs : List Candidate)
    (h : env.page = PageResult.ok imgs) (hne : imgs ≠ []) :
    run env =
      if (runLoop env imgs.length imgs 0).canceled then
        ⟨Effect.mkdir :: Effect.progress 0 ::
            ((runLoop env imgs.length imgs 0).trace ++
              [Effect.status "Download canceled."]),
          (runLoop env imgs.length imgs 0).saved, "Download canceled."⟩
      else
        ⟨Effect.mkdir :: Effect.progress 0 ::
            ((runLoop env imgs.length imgs 0).trace ++
              [Effect.progress 100,
                Effect.status (downloadedMsg (runLoop env imgs.length imgs 0).saved)]),
          (runLoop env imgs.length imgs 0).saved,
          downloadedMsg (runLoop env imgs.length imgs 0).saved⟩ := by
  unfold run
  rw [h]
  dsimp only
  rw [if_neg (by simpa using hne)]

/-! ## Full case analysis of one iteration, keeping the URL -/

theorem candStep_cases (env : Env) (t i : Nat) (c : Candidate) :
    candStep env t i c = ⟨[], 0⟩ ∨
    (∃ url, pyOr c.dataSrc c.src = some url ∧
      candStep env t i c = ⟨[Effect.fetch (dropRev url)], 0⟩) ∨
    (∃ url pay, pyOr c.dataSrc c.src = some url ∧
      env.fetch (dropRev url) = some pay ∧ 5000 ≤ pay.length ∧
      env.writeOk (savePathFor env.saveFolder url i) = true ∧
      candStep env t i c =
        ⟨[Effect.fetch (dropRev url),
          Effect.write (savePathFor env.saveFolder url i) pay,
          Effect.progress (pyPercent i t)], 1⟩) := by
  unfold candStep
  rcases hu : pyOr c.dataSrc c.src with _ | url
  · exact Or.inl rfl
  · dsimp only
    by_cases h1 : url = ""
    · rw [if_pos h1]; exact Or.inl rfl
    rw [if_neg h1]
    by_cases h2 : strStarts "data:image" url = true
    · rw [if_pos h2]; exact Or.inl rfl
    rw [if_neg h2]
    by_cases h3 : strHas "/images/" url = false
    · rw [if_pos h3]; exact Or.inl rfl
    rw [if_neg h3]
    rcases hf : env.fetch (dropRev url) with _ | pay
    · exact Or.inr (Or.inl ⟨url, rfl, rfl⟩)
    · dsimp only
      by_cases h4 : pay.length < 5000
      · rw [if_pos h4]; exact Or.inr (Or.inl ⟨url, rfl, rfl⟩)
      rw [if_neg h4]
      by_cases h5 : env.writeOk (savePathFor env.saveFolder url i) = true
      · rw [if_pos h5]
        exact Or.inr (Or.inr ⟨url, pay, rfl, hf, by omega, h5, rfl⟩)
      · rw [if_neg h5]; exact Or.inr (Or.inl ⟨url, rfl, rfl⟩)

/-- A successful write during one iteration pins the path down as the pure
function `savePathFor` of the candidate's URL and index. -/
theorem candStep_write_mem (env : Env) (t i : Nat) (c : Candidate)
    (p : String) (d : List Nat)
    (hm : Effect.write p d ∈ (candStep env t i c).trace) :
    ∃ url, pyOr c.dataSrc c.src = some url ∧
      p = savePathFor env.saveFolder url i ∧
      env.fetch (dropRev url) = some d := by
  rcases candStep_cases env t i c with h | ⟨url, hu, h⟩ | ⟨url, pay, hu, hf, _, _, h⟩ <;>
    rw [h] at hm
  · exact absurd hm (List.not_mem_nil _)
  · simp at hm
  · simp only [List.mem_cons, List.not_mem_nil, or_false] at hm
    rcases hm with h' | h' | h'
    · exact absurd h' (by simp)
    · obtain ⟨hp, hd⟩ := Effect.write.inj h'
      exact ⟨url, hu, hp, hd ▸ hf⟩
    · exact absurd h' (by simp)

/-! ## Cancellation cuts the loop to a prefix of the candidates -/

theorem runLoop_cancel_take (env : Env) (t k : Nat) :
    ∀ (cs : List Candidate) (idx : Nat),
      (∀ i, k < i → env.isRunning i = false) →
      idx ≤ k + 1 → k + 1 < idx + cs.length →
      (runLoop env t cs idx).trace =
        (runLoop env t (cs.take (k + 1 - idx)) idx).trace ∧
      (runLoop env t cs idx).saved =
        (runLoop env t (cs.take (k + 1 - idx)) idx).saved ∧
      (runLoop env t cs idx).canceled = true := by
  intro cs
  induction cs with
  | nil =>
    intro idx _ hle hlt
    exact absurd hlt (by simp; omega)
  | cons c rest ih =>
    intro idx hflag hle hlt
    by_cases hidx : idx = k + 1
    · have hr : env.isRunning idx = false := hflag idx (by omega)
      have htake : k + 1 - idx = 0 := by omega
      rw [htake]
      unfold runLoop
      rw [if_neg (by simp [hr])]
      exact ⟨rfl, rfl, rfl⟩
    · have htake : k + 1 - idx = (k - idx) + 1 := by omega
      rw [htake, List.take_succ_cons]
      by_cases hr : env.isRunning idx
      · unfold runLoop
        rw [if_pos hr, if_pos hr]
        dsimp only
        obtain ⟨h1, h2, h3⟩ := ih (idx + 1) hflag (by omega) (by simp at hlt ⊢; omega)
        rw [Nat.succ_sub_succ] at h1 h2
        exact ⟨by rw [h1], by rw [h2], h3⟩
      · unfold runLoop
        rw [if_neg hr, if_neg hr]
        exact ⟨rfl, rfl, rfl⟩

/-! ## Filesystem model: applying the run's writes -/

/-- The last write to `q` in a write list, if any. -/
def lastLook : List (String × List Nat) → String → Option (List Nat)
  | [], _ => none
  | w :: ws, q =>
    match lastLook ws q with
    | some d => some d
    | none => if q = w.1 then some w.2 else none

theorem lastLook_cons (w : String × List Nat) (ws : List (String × List Nat))
    (q : String) :
    lastLook (w :: ws) q =
      match lastLook ws q with
      | some d => some d
      | none => if q = w.1 then some w.2 else none := rfl

theorem applyWrites_eq_lastLook :
    ∀ (ws : List (String × List Nat)) (fs : String → Option (List Nat)) (q : String),
      applyWrites fs ws q =
        match lastLook ws q with
        | some d => some d
        | none => fs q := by
  intro ws
  induction ws with
  | nil => intro fs q; rfl
  | cons w ws ih =>
    intro fs q
    show applyWrites (fun q' => if q' = w.1 then some w.2 else fs q') ws q = _
    rw [ih, lastLook_cons]
    cases h : lastLook ws q
    · by_cases hq : q = w.1 <;> simp [hq]
    · rfl

/-- Applying the same write list twice is the same as applying it once:
re-running the harvest against an unchanged environment overwrites files,
it does not create new ones. -/
theorem applyWrites_idem (ws : List (String × List Nat))
    (fs : String → Option (List Nat)) (q : String) :
    applyWrites (applyWrites fs ws) ws q = applyWrites fs ws q := by
  rw [applyWrites_eq_lastLook, applyWrites_eq_lastLook]
  cases h : lastLook ws q <;> rfl

/-! ## The three early-return shapes of `run` -/

theorem run_trace_netError (env : Env) (m : String)
    (h : env.page = PageResult.netError m) :
    run env = ⟨[Effect.status ("Network Error: " ++ m)], 0,
      "Network Error: " ++ m⟩ := by
  unfold run; rw [h]

theorem run_trace_otherError (env : Env) (m : String)
    (h : env.page = PageResult.otherError m) :
    run env = ⟨[Effect.status ("Error: " ++ m)], 0, "Error: " ++ m⟩ := by
  unfold run; rw [h]

theorem run_trace_empty (env : Env) (h : env.page = PageResult.ok []) :
    run env = ⟨[Effect.status "No images found on the page."], 0,
      "No images found on the page."⟩ := by
  unfold run; rw [h]; rfl

theorem run_mkdirCount_one (env : Env) (imgs : List Candidate)
    (h : env.page = PageResult.ok imgs) (hne : imgs ≠ []) :
    mkdirCount (run env).trace = 1 := by
  rw [run_spec env imgs h hne]
  by_cases hc : (runLoop env imgs.length imgs 0).canceled
  · rw [if_pos hc]; simp [mkdirCount_append, runLoop_mkdir]
  · rw [if_neg hc]; simp [mkdirCount_append, runLoop_mkdir]

/-! ## Concrete inputs used by witnesses and counterexamples -/

/-- The saved candidate's raw URL from the spec's 3-candidate scenario. -/
def logoUrl : String := "https://x.example/images/logo1.png/revision/latest"

/-- Its revision-stripped full-size URL. -/
def logoFullUrl : String := "https://x.example/images/logo1.png"

/-- The path the scenario's image is saved to. -/
def logoPath : String := "dest/Downloaded_Company_Logos/logo1.png"

/-- Candidate carrying only an inline `data:image` URI. -/
def cData : Candidate := ⟨some "data:image/png;base64,AAAA", none⟩

/-- Candidate pointing at the scenario's logo. -/
def cLogo : Candidate := ⟨none, some logoUrl⟩

/-- Candidate with no resolvable URL. -/
def cNone : Candidate := ⟨none, none⟩

/-- Candidate whose URL is a data URI of a non-image media type that also
contains the `/images/` marker. -/
def cDataText : Candidate := ⟨some "data:text/plain,/images/x", none⟩

def pay6000 : List Nat := List.replicate 6000 0

theorem pay6000_len : pay6000.length = 6000 := by
  rw [show pay6000 = List.replicate 6000 0 from rfl, List.length_replicate]

def pay4999 : List Nat := List.replicate 4999 7

theorem pay4999_len : pay4999.length = 4999 := by
  rw [show pay4999 = List.replicate 4999 7 from rfl, List.length_replicate]

def pay5000 : List Nat := List.replicate 5000 7

theorem pay5000_len : pay5000.length = 5000 := by
  rw [show pay5000 = List.replicate 5000 7 from rfl, List.length_replicate]

attribute [irreducible] pay6000 pay4999 pay5000

/-- Fetch oracle resolving only the scenario's full-size logo URL. -/
def fetchLogo (pay : List Nat) : String → Option (List Nat) :=
  fun u => if u = logoFullUrl then some pay else none

/-- The spec's 3-candidate scenario: a `data:` URI, one 6000-byte logo,
one unresolvable candidate. -/
def scenarioEnv : Env :=
  ⟨PageResult.ok [cData, cLogo, cNone], fetchLogo pay6000,
    fun _ => true, fun _ => true, "dest"⟩

/-- One data-URI candidate; nothing is ever fetched or written. -/
def envOneData : Env :=
  ⟨PageResult.ok [cData], fun _ => none, fun _ => true, fun _ => true, "dest"⟩

/-- One logo candidate, cancellation observed from the very first read. -/
def envCancelNow : Env :=
  ⟨PageResult.ok [cLogo], fetchLogo pay6000, fun _ => true,
    fun _ => false, "dest"⟩

/-- One logo candidate; the flag is cleared while candidate 0 is being
processed, so the read at iteration 0 is still true and every later read
is false. -/
def envLateCancel : Env :=
  ⟨PageResult.ok [cLogo], fetchLogo pay6000, fun _ => true,
    fun i => decide (i = 0), "dest"⟩

/-- Two logo candidates with the flag cleared during candidate 0. -/
def envTwoCancel : Env :=
  ⟨PageResult.ok [cLogo, cLogo], fetchLogo pay6000, fun _ => true,
    fun i => decide (i = 0), "dest"⟩

/-- One logo candidate whose payload is 4999 bytes. -/
def envLow : Env :=
  ⟨PageResult.ok [cLogo], fetchLogo pay4999, fun _ => true,
    fun _ => true, "dest"⟩

/-- One logo candidate whose payload is 5000 bytes. -/
def envHigh : Env :=
  ⟨PageResult.ok [cLogo], fetchLogo pay5000, fun _ => true,
    fun _ => true, "dest"⟩

/-- One non-image data-URI candidate containing the asset marker. -/
def envDataText : Env :=
  ⟨PageResult.ok [cDataText], fun _ => none, fun _ => true,
    fun _ => true, "dest"⟩

/-- A page with no `img` elements. -/
def envNoImages : Env :=
  ⟨PageResult.ok [], fun _ => none, fun _ => true, fun _ => true, "dest"⟩

/-- A failing page fetch. -/
def envNetErr : Env :=
  ⟨PageResult.netError "boom", fun _ => none, fun _ => true,
    fun _ => true, "dest"⟩

/-- Modelled from the spec: the spec's skip rule speaks of a URL that "is
an inline-encoded data URI", i.e. any URL using the `data:` scheme; the
source instead tests only for the prefix `data:image`. -/
def specDataURI (s : String) : Bool := strStarts "data:" s

/-! ## Claims -/

/-- C1 counterexample: in the 3-candidate scenario (data-URI skip, one
saved 6000-byte image, one unresolvable skip) the run emits exactly the
progress values 0, 66, 100.  No value is emitted after the two skipped
candidates, and the value after the saved candidate (index 1) is the
float truncation 66, not round(100·2/3) = 67; neither 33 nor 67 is ever
emitted, contradicting the claimed per-candidate emissions ~33, ~67,
100.  The last conjunct shows the float model differing from the exact
value at another reachable input: at idx 28 of 100 candidates the saved
candidate emits 28 (`int(0.28999999999999998 * 100)`), one below the
exact `round(100·29/100) = ⌊100·29/100⌋ = 29` the claim would demand. -/
theorem c1_counterexample :
    progressValues (run scenarioEnv).trace = [0, 66, 100] ∧
    (67 : Nat) ∉ progressValues (run scenarioEnv).trace ∧
    (33 : Nat) ∉ progressValues (run scenarioEnv).trace ∧
    pyPercent 28 100 = 28 ∧ (28 + 1) * 100 / 100 = 29 := by
  have h : progressValues (run scenarioEnv).trace = [0, 66, 100] := by
    simp [run, scenarioEnv, runLoop, candStep, cData, cLogo, cNone, fetchLogo,
      pyOr, pay6000_len, pyPercent_one_three, strStarts, listStarts, strHas,
      listHas, dropRev, cutAt, savePathFor, sanitizeName, chooseName,
      basename, keepChar, logosFolderName, logoUrl, logoFullUrl]
  exact ⟨h, by rw [h]; decide, by rw [h]; decide, pyPercent_28_100, by norm_num⟩

/-- C1 (amended): processing one candidate emits a progress value exactly
when the candidate is saved, and then exactly the value of the float
expression `int(((idx + 1) / totalCandidates) * 100)` — truncation of the
double product, not rounding of the exact ratio — modelled bit-exactly by
`pyPercent idx totalCandidates`; skipped candidates emit no progress at
all. -/
theorem c1_progress_amended (env : Env) (t i : Nat) (c : Candidate) :
    ((candStep env t i c).saved = 0 ∧
      progressValues (candStep env t i c).trace = []) ∨
    ((candStep env t i c).saved = 1 ∧
      progressValues (candStep env t i c).trace = [pyPercent i t]) :=
  candStep_progress env t i c

/-- C2 counterexample: with a single data-URI candidate the sub-folder is
created although no image write is ever performed or even attempted, so
creation is not lazy on first write need. -/
theorem c2_counterexample :
    mkdirCount (run envOneData).trace = 1 ∧
    writesOf (run envOneData).trace = [] := by
  constructor <;>
    simp [run, envOneData, runLoop, candStep, cData, pyOr, strStarts,
      listStarts]

/-- C2 (amended): the sub-folder is created exactly once per session,
eagerly before any candidate is processed, if and only if the page fetch
succeeded and at least one image reference exists — even when no image
write is ever attempted. -/
theorem c2_mkdir_amended (env : Env) :
    mkdirCount (run env).trace ≤ 1 ∧
    (mkdirCount (run env).trace = 1 ↔
      ∃ imgs, env.page = PageResult.ok imgs ∧ imgs ≠ []) ∧
    (∀ imgs, env.page = PageResult.ok imgs → imgs ≠ [] →
      (run env).trace.head? = some Effect.mkdir) := by
  rcases hp : env.page with imgs | m | m
  · by_cases hz : imgs = []
    · subst hz
      rw [run_trace_empty env hp]
      refine ⟨by simp, by simp, ?_⟩
      intro imgs' h' hne'
      exact absurd (PageResult.ok.inj h').symm hne'
    · refine ⟨?_, ?_, ?_⟩
      · rw [run_mkdirCount_one env imgs hp hz]
      · rw [run_mkdirCount_one env imgs hp hz]
        exact ⟨fun _ => ⟨imgs, rfl, hz⟩, fun _ => rfl⟩
      · intro imgs' _ _
        rw [run_spec env imgs hp hz]
        by_cases hc : (runLoop env imgs.length imgs 0).canceled
        · rw [if_pos hc]; rfl
        · rw [if_neg hc]; rfl
  · rw [run_trace_netError env m hp]
    refine ⟨by simp, by simp, ?_⟩
    intro imgs' h' _
    exact absurd h' (by simp)
  · rw [run_trace_otherError env m hp]
    refine ⟨by simp, by simp, ?_⟩
    intro imgs' h' _
    exact absurd h' (by simp)

/-- C2 witness: the amended claim applied to the single-skip environment,
its hypotheses discharged concretely. -/
theorem c2_mkdir_amended_witness :
    mkdirCount (run envOneData).trace ≤ 1 ∧
    mkdirCount (run envOneData).trace = 1 ∧
    (run envOneData).trace.head? = some Effect.mkdir :=
  ⟨(c2_mkdir_amended envOneData).1,
   (c2_mkdir_amended envOneData).2.1.mpr ⟨[cData], rfl, by simp⟩,
   (c2_mkdir_amended envOneData).2.2 [cData] rfl (by simp)⟩

/-- C3 counterexample: with cancellation observed at the first read, the
run emits only the initial 0, so the last emitted progress value is not
100. -/
theorem c3_counterexample :
    progressValues (run envCancelNow).trace = [0] ∧
    (progressValues (run envCancelNow).trace).getLast? ≠ some 100 := by
  have h : progressValues (run envCancelNow).trace = [0] := by
    simp [run, envCancelNow, runLoop, candStep, cLogo, fetchLogo, pyOr]
  exact ⟨h, by rw [h]; decide⟩

/-- C3 (amended): the progress values emitted in one run are always
monotonically non-decreasing; when the page fetch succeeds with at least
one candidate and the loop is not canceled, the last emitted value is
exactly 100.  (Canceled, zero-image and page-error runs do not end at
100.) -/
theorem c3_monotone_amended (env : Env) :
    List.Pairwise (· ≤ ·) (progressValues (run env).trace) ∧
    (∀ imgs, env.page = PageResult.ok imgs → imgs ≠ [] →
      (runLoop env imgs.length imgs 0).canceled = false →
      (progressValues (run env).trace).getLast? = some 100) := by
  constructor
  · rcases hp : env.page with imgs | m | m
    · by_cases hz : imgs = []
      · rw [hz] at hp
        rw [run_trace_empty env hp]
        simp
      · rw [run_spec env imgs hp hz]
        by_cases hc : (runLoop env imgs.length imgs 0).canceled
        · rw [if_pos hc]
          dsimp only
          rw [progressValues_mkdir, progressValues_progress,
            progressValues_append]
          simp only [progressValues_status, progressValues_nil,
            List.append_nil]
          rw [List.pairwise_cons]
          exact ⟨fun b _ => Nat.zero_le b,
            runLoop_progress_pairwise env imgs.length imgs 0⟩
        · rw [if_neg hc]
          dsimp only
          rw [progressValues_mkdir, progressValues_progress,
            progressValues_append]
          simp only [progressValues_progress, progressValues_status,
            progressValues_nil]
          rw [List.pairwise_cons]
          refine ⟨fun b _ => Nat.zero_le b, ?_⟩
          rw [List.pairwise_append]
          refine ⟨runLoop_progress_pairwise env imgs.length imgs 0,
            List.pairwise_singleton _ _, ?_⟩
          intro a ha b hb
          rcases runLoop_progress_mem env imgs.length imgs 0 a ha with
            ⟨j, _, hj2, rfl⟩
          rcases List.mem_singleton.mp hb with rfl
          exact pyPercent_le_100 j imgs.length (by simpa using hj2)
    · rw [run_trace_netError env m hp]; simp
    · rw [run_trace_otherError env m hp]; simp
  · intro imgs hp hz hc
    rw [run_spec env imgs hp hz, if_neg (by simp [hc])]
    dsimp only
    rw [progressValues_mkdir, progressValues_progress, progressValues_append]
    simp only [progressValues_progress, progressValues_status,
      progressValues_nil]
    rw [← List.cons_append, List.getLast?_append_cons]
    rfl

/-- C3 witness: the amended claim applied to the single-skip environment
(whose loop is never canceled), hypotheses discharged concretely. -/
theorem c3_monotone_amended_witness :
    List.Pairwise (· ≤ ·) (progressValues (run envOneData).trace) ∧
    (progressValues (run envOneData).trace).getLast? = some 100 :=
  ⟨(c3_monotone_amended envOneData).1,
   (c3_monotone_amended envOneData).2 [cData] rfl (by simp)
     (by simp [runLoop, envOneData, candStep, cData, pyOr, strStarts,
       listStarts])⟩

/-- C4 counterexample: with a single candidate and the cancellation flag
cleared while candidate 0 is processed (read true at iteration 0, false
from iteration 1 on), the run completes the whole loop and ends with the
save-count summary — not with a cancellation status. -/
theorem c4_counterexample :
    (run envLateCancel).finalStatus = downloadedMsg 1 ∧
    (run envLateCancel).finalStatus ≠ "Download canceled." := by
  have h : (run envLateCancel).finalStatus = downloadedMsg 1 := by
    simp [run, envLateCancel, runLoop, candStep, cLogo, fetchLogo, pyOr,
      pay6000_len, strStarts, listStarts, strHas, listHas, dropRev, cutAt,
      savePathFor, sanitizeName, chooseName, basename, keepChar,
      logosFolderName, logoUrl, logoFullUrl]
  refine ⟨h, ?_⟩
  rw [h]
  decide

/-- C4 (amended): if the cancellation flag reads false at every iteration
after candidate k, and k is not the last candidate, then the run's whole
effect trace is exactly that of the first k+1 candidates followed by the
cancellation status, its final status is "Download canceled." (not a
save-count summary), and its saved count comes from those candidates
alone — no candidate with index greater than k is processed.  (When k is
the last candidate the loop never reaches another cancellation check and
the run ends with the summary instead.) -/
theorem c4_cancel_amended (env : Env) (imgs : List Candidate) (k : Nat)
    (hp : env.page = PageResult.ok imgs)
    (hflag : ∀ i, k < i → env.isRunning i = false)
    (hk : k + 1 < imgs.length) :
    (run env).finalStatus = "Download canceled." ∧
    (run env).trace =
      Effect.mkdir :: Effect.progress 0 ::
        ((runLoop env imgs.length (imgs.take (k + 1)) 0).trace ++
          [Effect.status "Download canceled."]) ∧
    (run env).saved = (runLoop env imgs.length (imgs.take (k + 1)) 0).saved := by
  have hne : imgs ≠ [] := by
    intro h
    rw [h] at hk
    simp at hk
  obtain ⟨h1, h2, h3⟩ :=
    runLoop_cancel_take env imgs.length k imgs 0 hflag (by omega) (by omega)
  rw [run_spec env imgs hp hne, if_pos (by simp [h3])]
  refine ⟨rfl, ?_, ?_⟩
  · dsimp only
    rw [h1, Nat.sub_zero]
  · dsimp only
    rw [h2, Nat.sub_zero]

/-- C4 witness: the amended claim applied to a 2-candidate run whose flag
is cleared during candidate 0, hypotheses discharged concretely. -/
theorem c4_cancel_amended_witness :
    (run envTwoCancel).finalStatus = "Download canceled." ∧
    (run envTwoCancel).trace =
      Effect.mkdir :: Effect.progress 0 ::
        ((runLoop envTwoCancel 2 ([cLogo, cLogo].take 1) 0).trace ++
          [Effect.status "Download canceled."]) ∧
    (run envTwoCancel).saved = (runLoop envTwoCancel 2 ([cLogo, cLogo].take 1) 0).saved :=
  c4_cancel_amended envTwoCancel [cLogo, cLogo] 0 rfl
    (fun i hi => by
      simp only [envTwoCancel, decide_eq_false_iff_not]
      omega)
    (by decide)

/-- C5: for a candidate that passes every URL filter and whose fetch
returns a payload, a 4999-byte payload is rejected (no write, nothing
saved) while a 5000-byte payload is accepted and saved — the rejection
condition is strictly `length < 5000`. -/
theorem c5_threshold (env : Env) (t i : Nat) (c : Candidate) (url : String)
    (hres : pyOr c.dataSrc c.src = some url)
    (hne : url ≠ "")
    (hdata : strStarts "data:image" url = false)
    (hmark : strHas "/images/" url = true) :
    (∀ pay, env.fetch (dropRev url) = some pay → pay.length = 4999 →
      candStep env t i c = ⟨[Effect.fetch (dropRev url)], 0⟩) ∧
    (∀ pay, env.fetch (dropRev url) = some pay → pay.length = 5000 →
      env.writeOk (savePathFor env.saveFolder url i) = true →
      candStep env t i c =
        ⟨[Effect.fetch (dropRev url),
          Effect.write (savePathFor env.saveFolder url i) pay,
          Effect.progress (pyPercent i t)], 1⟩) := by
  unfold candStep
  rw [hres]
  dsimp only
  rw [if_neg hne, if_neg (by simp [hdata]), if_neg (by simp [hmark])]
  constructor
  · intro pay hf hlen
    rw [hf]
    dsimp only
    rw [if_pos (by omega)]
  · intro pay hf hlen hw
    rw [hf]
    dsimp only
    rw [if_neg (by omega), if_pos hw]

/-- C5 witness: the threshold theorem applied at two concrete
environments, one with a 4999-byte payload (rejected), one with a
5000-byte payload (accepted and written). -/
theorem c5_threshold_witness :
    candStep envLow 1 0 cLogo = ⟨[Effect.fetch (dropRev logoUrl)], 0⟩ ∧
    candStep envHigh 1 0 cLogo =
      ⟨[Effect.fetch (dropRev logoUrl),
        Effect.write (savePathFor envHigh.saveFolder logoUrl 0) pay5000,
        Effect.progress (pyPercent 0 1)], 1⟩ :=
  ⟨(c5_threshold envLow 1 0 cLogo logoUrl (by decide) (by decide) (by decide)
      (by decide)).1 pay4999
      (by rw [show dropRev logoUrl = logoFullUrl from by decide]
          simp [envLow, fetchLogo])
      pay4999_len,
   (c5_threshold envHigh 1 0 cLogo logoUrl (by decide) (by decide) (by decide)
      (by decide)).2 pay5000
      (by rw [show dropRev logoUrl = logoFullUrl from by decide]
          simp [envHigh, fetchLogo])
      pay5000_len rfl⟩

/-- C6 counterexample: the URL `data:text/plain,/images/x` is an
inline-encoded data URI (scheme `data:`), yet because it does not start
with the literal `data:image` and does contain `/images/`, the code
reaches the image fetch for it — an attempted fetch of a data URI,
contradicting "no image fetch is attempted". -/
theorem c6_counterexample :
    specDataURI "data:text/plain,/images/x" = true ∧
    Effect.fetch "data:text/plain,/images/x" ∈ (run envDataText).trace := by
  constructor
  · decide
  · simp [run, envDataText, runLoop, candStep, cDataText, pyOr, strStarts,
      listStarts, strHas, listHas, dropRev, cutAt]

/-- C6 (amended): a candidate is skipped with no side effect — no fetch
attempt, no write, no saved-count change — when its resolved URL is
absent or empty, or when it starts with the literal prefix `data:image`
(the code's data-URI test, narrower than "any data URI"), or when it
lacks the `/images/` marker. -/
theorem c6_skip_amended (env : Env) (t i : Nat) (c : Candidate)
    (h : pyOr c.dataSrc c.src = none ∨ pyOr c.dataSrc c.src = some "" ∨
      (∃ url, pyOr c.dataSrc c.src = some url ∧
        (strStarts "data:image" url = true ∨ strHas "/images/" url = false))) :
    candStep env t i c = ⟨[], 0⟩ := by
  unfold candStep
  rcases h with h | h | ⟨url, hu, hcond⟩
  · rw [h]
  · rw [h]
    dsimp only
    rw [if_pos rfl]
  · rw [hu]
    dsimp only
    by_cases h1 : url = ""
    · rw [if_pos h1]
    · rw [if_neg h1]
      rcases hcond with h2 | h2
      · rw [if_pos h2]
      · by_cases hd : strStarts "data:image" url = true
        · rw [if_pos hd]
        · rw [if_neg hd, if_pos h2]

/-- C6 witness: the amended skip rule applied to the concrete
`data:image` candidate. -/
theorem c6_skip_amended_witness :
    candStep envOneData 1 0 cData = ⟨[], 0⟩ :=
  c6_skip_amended envOneData 1 0 cData
    (Or.inr (Or.inr ⟨"data:image/png;base64,AAAA", by decide,
      Or.inl (by decide)⟩))

/-- C7: a run whose page parse yields zero image elements reports the
"no images" status, terminates with saved-count 0, and never creates the
destination sub-folder. -/
theorem c7_no_images (env : Env) (h : env.page = PageResult.ok []) :
    (run env).finalStatus = "No images found on the page." ∧
    (run env).saved = 0 ∧
    mkdirCount (run env).trace = 0 := by
  rw [run_trace_empty env h]
  exact ⟨rfl, rfl, rfl⟩

/-- C7 witness: the zero-image property at the concrete empty-page
environment. -/
theorem c7_no_images_witness :
    (run envNoImages).finalStatus = "No images found on the page." ∧
    (run envNoImages).saved = 0 ∧
    mkdirCount (run envNoImages).trace = 0 :=
  c7_no_images envNoImages rfl

/-- C8: applying the run's writes a second time to the filesystem they
produced changes nothing (same set of saved filenames, overwritten, not
duplicated), and every written path is the pure function `savePathFor` of
the candidate's URL and index — not of run identity. -/
theorem c8_idempotent (env : Env) (fs : String → Option (List Nat))
    (q : String) (t i : Nat) (c : Candidate) (p : String) (d : List Nat) :
    applyWrites (applyWrites fs (writesOf (run env).trace))
        (writesOf (run env).trace) q =
      applyWrites fs (writesOf (run env).trace) q ∧
    (Effect.write p d ∈ (candStep env t i c).trace →
      ∃ url, pyOr c.dataSrc c.src = some url ∧
        p = savePathFor env.saveFolder url i) :=
  ⟨applyWrites_idem _ _ _,
   fun hm => Exists.imp (fun _ h => ⟨h.1, h.2.1⟩)
     (candStep_write_mem env t i c p d hm)⟩

/-- C8 witness: idempotence of the writes of the 5000-byte run at the
written path, and the written path's derivation from the candidate URL,
all at concrete inputs. -/
theorem c8_idempotent_witness :
    applyWrites (applyWrites (fun _ => none) (writesOf (run envHigh).trace))
        (writesOf (run envHigh).trace) logoPath =
      applyWrites (fun _ => none) (writesOf (run envHigh).trace) logoPath ∧
    ∃ url, pyOr cLogo.dataSrc cLogo.src = some url ∧
      savePathFor "dest" logoUrl 0 = savePathFor envHigh.saveFolder url 0 :=
  ⟨(c8_idempotent envHigh (fun _ => none) logoPath 1 0 cLogo
      (savePathFor "dest" logoUrl 0) pay5000).1,
   (c8_idempotent envHigh (fun _ => none) logoPath 1 0 cLogo
      (savePathFor "dest" logoUrl 0) pay5000).2
     (by simp [candStep, envHigh, cLogo, fetchLogo, pyOr, pay5000_len,
       strStarts, listStarts, strHas, listHas, dropRev, cutAt, logoUrl,
       logoFullUrl])⟩

/-- C9: every run ends in exactly one terminal status message (no
exception escapes the worker), a page-fetch failure is reported as a
"Network Error: ..." status and any other page-stage exception as a
generic "Error: ..." status. -/
theorem c9_terminal_status (env : Env) :
    statusValues (run env).trace = [(run env).finalStatus] ∧
    (∀ m, env.page = PageResult.netError m →
      (run env).finalStatus = "Network Error: " ++ m) ∧
    (∀ m, env.page = PageResult.otherError m →
      (run env).finalStatus = "Error: " ++ m) := by
  refine ⟨?_, ?_, ?_⟩
  · rcases hp : env.page with imgs | m | m
    · by_cases hz : imgs = []
      · subst hz
        rw [run_trace_empty env hp]
        rfl
      · rw [run_spec env imgs hp hz]
        by_cases hc : (runLoop env imgs.length imgs 0).canceled
        · rw [if_pos hc]
          dsimp only
          rw [statusValues_mkdir, statusValues_progress, statusValues_append,
            runLoop_status]
          rfl
        · rw [if_neg hc]
          dsimp only
          rw [statusValues_mkdir, statusValues_progress, statusValues_append,
            runLoop_status]
          rfl
    · rw [run_trace_netError env m hp]; rfl
    · rw [run_trace_otherError env m hp]; rfl
  · intro m hm
    rw [run_trace_netError env m hm]
  · intro m hm
    rw [run_trace_otherError env m hm]

/-- C9 witness: the terminal-status theorem at a concrete failing page
fetch. -/
theorem c9_terminal_status_witness :
    statusValues (run envNetErr).trace = [(run envNetErr).finalStatus] ∧
    (run envNetErr).finalStatus = "Network Error: " ++ "boom" :=
  ⟨(c9_terminal_status envNetErr).1,
   (c9_terminal_status envNetErr).2.1 "boom" rfl⟩

/-- C10: URL resolution prefers `data-src` by truthiness, not presence —
a present-but-empty `data-src` falls back to `src`, an absent `data-src`
falls back to `src`, and a non-empty `data-src` wins. -/
theorem c10_truthiness (c : Candidate) :
    (c.dataSrc = some "" → pyOr c.dataSrc c.src = c.src) ∧
    (c.dataSrc = none → pyOr c.dataSrc c.src = c.src) ∧
    (∀ s, c.dataSrc = some s → s ≠ "" → pyOr c.dataSrc c.src = some s) := by
  refine ⟨?_, ?_, ?_⟩
  · intro h
    unfold pyOr
    rw [h]
    simp
  · intro h
    unfold pyOr
    rw [h]
  · intro s h hs
    unfold pyOr
    rw [h]
    dsimp only
    rw [if_neg hs]

/-- C10 witness: the truthiness rule at a concrete candidate whose
`data-src` is present but empty. -/
theorem c10_truthiness_witness :
    pyOr (Candidate.mk (some "") (some "https://y/images/a.png")).dataSrc
        (Candidate.mk (some "") (some "https://y/images/a.png")).src =
      (Candidate.mk (some "") (some "https://y/images/a.png")).src :=
  (c10_truthiness ⟨some "", some "https://y/images/a.png"⟩).1 rfl

end ETS2
